import Mathlib

/-!
# Verification of the QPanda-lite circuit builder (`qpandalite/circuit_builder/qcircuit.py`)

Shallow embedding of the circuit-template module: the helper functions
`_check_qubit_overflow` and `_check_qubit_key`, the `Circuit` class (qubit-map
resolution, composition, gate builders) and the `Fragment` subclass.

Python values are embedded as Lean values: `str` as `String`, `list` as
`List`, `dict` (insertion ordered) as an association list, `None`-or-value as
`Option`. A Python method that can raise is embedded as a function returning
`Except String α` paired with the post-state of `self` (Python exceptions
propagate past any mutation of `self` already performed, so the post-state is
returned on the error path as well).
-/

/-- ASCII whitespace accepted (and stripped) by CPython `int(str)`:
space, tab, newline, carriage return, vertical tab, form feed. -/
def isPyWs (c : Char) : Bool :=
  c == ' ' || c == '\t' || c == '\n' || c == '\r' || c == '\x0b' || c == '\x0c'

/-- Strip leading and trailing whitespace, as CPython `int(str)` does before
parsing. -/
def pyStrip (cs : List Char) : List Char :=
  ((cs.dropWhile isPyWs).reverse.dropWhile isPyWs).reverse

/-- Digit tail of a CPython integer literal: after a first digit, each further
character is a digit, or a single underscore that must be followed by a digit.
`acc` is the value of the digits already consumed. -/
def parseDigitsAux (acc : Nat) : List Char → Option Nat
  | [] => some acc
  | c :: rest =>
    if c.isDigit then parseDigitsAux (acc * 10 + (c.toNat - 48)) rest
    else if c == '_' then
      match rest with
      | [] => Option.none
      | d :: rest2 =>
        if d.isDigit then parseDigitsAux (acc * 10 + (d.toNat - 48)) rest2
        else Option.none
    else Option.none

/-- Unsigned part of a CPython integer literal: a nonempty digit sequence,
with single underscores allowed between digits. -/
def parseUnsigned : List Char → Option Nat
  | [] => Option.none
  | c :: rest => if c.isDigit then parseDigitsAux (c.toNat - 48) rest else Option.none

/-- Embedding of the CPython builtin `int(str)` on ASCII strings (the only
inputs the repository feeds it): strip surrounding whitespace, accept one
optional `+`/`-` sign, then a nonempty digit sequence with single underscores
allowed between digits; everything else raises `ValueError`, embedded as
`Option.none`. -/
def pyIntParse (cs : List Char) : Option Int :=
  match pyStrip cs with
  | [] => Option.none
  | c :: rest =>
    if c == '+' then (parseUnsigned rest).map Int.ofNat
    else if c == '-' then (parseUnsigned rest).map (fun n => -(n : Int))
    else (parseUnsigned (c :: rest)).map Int.ofNat

/-- Embedding of `_check_qubit_key` (qcircuit.py:25-38): `None` unless the key
starts with `q`; otherwise `int(key[1:])`, with the `except` clause turning
any parse failure into `None`. -/
def _check_qubit_key (qubit_key : String) : Option Int :=
  match qubit_key.toList with
  | [] => Option.none
  | c :: rest => if c == 'q' then pyIntParse rest else Option.none

/-- Embedding of `_check_qubit_overflow` (qcircuit.py:10-23): the loop returns
`False` at the first qubit with `qubit >= n`, and `True` if none is found. -/
def _check_qubit_overflow (qubits : List Int) (n : Int) : Bool :=
  qubits.all (fun qubit => decide (qubit < n))

/-- The qubit-key pattern as the spec words it: the letter `q` followed by the
decimal digits of a non-negative integer, with no other characters. -/
def specQubitKeyMatch (qubit_key : String) : Option Int :=
  match qubit_key.toList with
  | [] => Option.none
  | c :: rest =>
    if c == 'q' && !rest.isEmpty && rest.all Char.isDigit then
      some (Int.ofNat (rest.foldl (fun a d => a * 10 + (d.toNat - 48)) 0))
    else Option.none

/-- Decimal value of a digit list. -/
def digitsVal (ds : List Char) : Nat :=
  ds.foldl (fun a d => a * 10 + (d.toNat - 48)) 0

theorem isPyWs_eq_false_of_isDigit {c : Char} (h : c.isDigit = true) :
    isPyWs c = false := by
  simp only [Char.isDigit, Bool.and_eq_true, decide_eq_true_eq] at h
  obtain ⟨h1, h2⟩ := h
  simp only [isPyWs, Bool.or_eq_false_iff, beq_eq_false_iff_ne, ne_eq]
  refine ⟨⟨⟨⟨⟨?_, ?_⟩, ?_⟩, ?_⟩, ?_⟩, ?_⟩ <;> intro hc <;> subst hc <;> revert h1 h2 <;> decide

theorem dropWhile_eq_self_of_head_digit {cs : List Char}
    (h : ∀ c ∈ cs, c.isDigit = true) : cs.dropWhile isPyWs = cs := by
  cases cs with
  | nil => rfl
  | cons c rest =>
    have hd : c.isDigit = true := h c (List.mem_cons_self c rest)
    simp [List.dropWhile, isPyWs_eq_false_of_isDigit hd]

theorem pyStrip_all_digits {cs : List Char}
    (h : ∀ c ∈ cs, c.isDigit = true) : pyStrip cs = cs := by
  unfold pyStrip
  rw [dropWhile_eq_self_of_head_digit h]
  have hrev : ∀ c ∈ cs.reverse, c.isDigit = true := by
    intro c hc
    exact h c (List.mem_reverse.mp hc)
  rw [dropWhile_eq_self_of_head_digit hrev, List.reverse_reverse]

theorem parseDigitsAux_cons_digit (acc : Nat) (c : Char) (rest : List Char)
    (hd : c.isDigit = true) :
    parseDigitsAux acc (c :: rest) = parseDigitsAux (acc * 10 + (c.toNat - 48)) rest := by
  rw [parseDigitsAux.eq_def]
  simp [hd]

theorem parseDigitsAux_all_digits (ds : List Char) :
    ∀ acc : Nat, (∀ c ∈ ds, c.isDigit = true) →
    parseDigitsAux acc ds = some (ds.foldl (fun a d => a * 10 + (d.toNat - 48)) acc) := by
  induction ds with
  | nil => intro acc _; rfl
  | cons c rest ih =>
    intro acc h
    have hd : c.isDigit = true := h c (List.mem_cons_self c rest)
    have ht : ∀ x ∈ rest, x.isDigit = true := fun x hx => h x (List.mem_cons_of_mem c hx)
    rw [parseDigitsAux_cons_digit acc c rest hd, List.foldl_cons]
    exact ih _ ht

/-! ## Data model: qubit maps, gates, circuits -/

/-- The qubit map built by the assign parsers: an embedding of the Python
`dict` from placeholder qubit index to target qubit index, as an
insertion-ordered association list with distinct keys maintained by
`QubitMap.insert`. -/
abbrev QubitMap := List (Int × Int)

/-- Python `k in d` on the qubit map. -/
def QubitMap.hasKey (m : QubitMap) (k : Int) : Bool :=
  m.any (fun p => p.1 == k)

/-- Python `d[k]` on the qubit map, with the key's own index as fallback for a
missing key (callers in the source only read keys they have checked). -/
def QubitMap.findD (m : QubitMap) (k : Int) : Int :=
  ((m.find? (fun p => p.1 == k)).map Prod.snd).getD k

/-- Python `d[k] = v`: overwrite in place when the key exists (a Python dict
keeps the original insertion position), else append at the end. -/
def QubitMap.insert (m : QubitMap) (k v : Int) : QubitMap :=
  if m.hasKey k then m.map (fun p => if p.1 == k then (k, v) else p)
  else m ++ [(k, v)]

/-- Python `repr` of a list of ints, as interpolated into the f-string of
`assign_by_map`. -/
def pyReprIntList (l : List Int) : String :=
  "[" ++ String.intercalate ", " (l.map toString) ++ "]"

/-- Python `repr` of the qubit-map dict, as interpolated into the f-string of
`assign_by_map`. -/
def pyReprQubitMap (m : QubitMap) : String :=
  "\x7b" ++ String.intercalate ", " (m.map (fun p => toString p.1 ++ ": " ++ toString p.2)) ++ "\x7d"

/-- Gate parameters (rotation angles): floats or symbolic strings in the
source, never interpreted by the circuit logic, so embedded as an opaque
token. -/
abbrev Angle := String

/-- Modelled from the spec: the gate module (`basic_gates`, star-imported by
qcircuit.py) is not under src/. Per the spec (sections 1 and 6), a bound gate
exposes `involved_qubits()` returning a sequence of ints and
`assign_by_map(qubit_map)` returning a new gate bound through the map; it is
otherwise opaque to the circuit, so we model it as a kind tag, its qubit
operands, and its parameter token. -/
structure Gate where
  kind : String
  qubits : List Int
  angle : Angle

/-- Modelled from the spec: the gate contract `involved_qubits()`. -/
def Gate.involved_qubits (g : Gate) : List Int := g.qubits

/-- Modelled from the spec: the gate contract `assign_by_map(qubit_map)` —
a new gate with every qubit operand sent through the map. -/
def Gate.assign_by_map (g : Gate) (qubit_map : QubitMap) : Gate :=
  { g with qubits := g.qubits.map (fun q => QubitMap.findD qubit_map q) }

/-- Modelled from the spec: the `Rx` gate constructor of `basic_gates`. -/
def Rx (qubit : Int) (angle : Angle) : Gate := ⟨"Rx", [qubit], angle⟩

/-- Modelled from the spec: the `Ry` gate constructor of `basic_gates`. -/
def Ry (qubit : Int) (angle : Angle) : Gate := ⟨"Ry", [qubit], angle⟩

/-- Modelled from the spec: the `Rz` gate constructor of `basic_gates`. -/
def Rz (qubit : Int) (angle : Angle) : Gate := ⟨"Rz", [qubit], angle⟩

/-- Embedding of the `Circuit` class state (qcircuit.py:68-78): `name`,
`gate_list` (whose entries are bound gates or nested circuits), the
insertion-ordered deduplicated `involved_qubits`, the `fragment` flag (set
exactly by the `Fragment` constructor, so for values built through the API it
coincides with `isinstance(-, Fragment)`), the `expand` flag, and the optional
recorded `mapping`. -/
inductive Circuit : Type where
  | mk (name : Option String) (gate_list : List (Gate ⊕ Circuit))
      (involved_qubits : List Int) (fragment : Bool) (expand : Bool)
      (mapping : Option QubitMap) : Circuit

def Circuit.name : Circuit → Option String
  | .mk n _ _ _ _ _ => n

def Circuit.gate_list : Circuit → List (Gate ⊕ Circuit)
  | .mk _ gl _ _ _ _ => gl

def Circuit.involved_qubits : Circuit → List Int
  | .mk _ _ iq _ _ _ => iq

def Circuit.fragment : Circuit → Bool
  | .mk _ _ _ fr _ _ => fr

def Circuit.expand : Circuit → Bool
  | .mk _ _ _ _ ex _ => ex

def Circuit.mapping : Circuit → Option QubitMap
  | .mk _ _ _ _ _ mp => mp

/-- `self.mapping = m` on a circuit value. -/
def Circuit.setMapping : Circuit → Option QubitMap → Circuit
  | .mk n gl iq fr ex _, mp => .mk n gl iq fr ex mp

/-- `self.expand = e` on a circuit value. -/
def Circuit.setExpand : Circuit → Bool → Circuit
  | .mk n gl iq fr _ mp, ex => .mk n gl iq fr ex mp

/-- `self.fragment = f` on a circuit value. -/
def Circuit.setFragment : Circuit → Bool → Circuit
  | .mk n gl iq _ ex mp, fr => .mk n gl iq fr ex mp

/-- Embedding of `Circuit.__init__` (qcircuit.py:68-78): `if not name` is
Python truthiness, so both `None` and the empty string give `name = None`;
empty gate list and involved qubits, `fragment = False`, `expand = True`,
`mapping = None`. -/
def Circuit.init (name : Option String) : Circuit :=
  Circuit.mk (match name with
              | Option.none => Option.none
              | some s => if s == "" then Option.none else some s)
    [] [] false true Option.none

/-- The involved-qubit bookkeeping loop shared by `_append_gate` and
`_append_circuit`: append each new qubit not already present, keeping
insertion order. -/
def mergeQubits (iq : List Int) (qs : List Int) : List Int :=
  qs.foldl (fun acc q => if acc.contains q then acc else acc ++ [q]) iq

/-- Embedding of `Circuit._append_gate` (qcircuit.py:225-234): append the gate
to `gate_list` and merge its involved qubits. -/
def Circuit._append_gate : Circuit → Gate → Circuit
  | .mk n gl iq fr ex mp, g =>
    .mk n (gl ++ [Sum.inl g]) (mergeQubits iq (Gate.involved_qubits g)) fr ex mp

/-- Embedding of `Circuit._check_qubit_map` (qcircuit.py:108-113): the loop
returns `False` at the first involved qubit that is not a key of the map. -/
def Circuit._check_qubit_map (self : Circuit) (qubit_map : QubitMap) : Bool :=
  self.involved_qubits.all (fun qubit => QubitMap.hasKey qubit_map qubit)

mutual

/-- Embedding of `Circuit.assign_by_map` (qcircuit.py:116-129), returning the
outcome (the new circuit `ret`, or the raised error) paired with the
post-state of `self`. The method builds `ret = Circuit(self.name)`, raises the
coverage error when `_check_qubit_map` fails — note the f-string interpolates
`ret.involved_qubits`, the freshly created circuit's (empty) list — records
the map on `ret`, then runs the gate loop. No statement of the method assigns
to `self`, so both outcomes pair with `self` itself. -/
def Circuit.assign_by_map : Circuit → QubitMap → Except String Circuit × Circuit
  | self@(.mk name gl _ _ _ _), qubit_map =>
    let ret := Circuit.init name
    if !(Circuit._check_qubit_map self qubit_map) then
      (Except.error ("Qubit map does not cover all involved qubits. "
        ++ "Every involved qubits must be a key in qubit_map.\n"
        ++ "Expect: " ++ pyReprIntList ret.involved_qubits
        ++ ", Get: " ++ pyReprQubitMap qubit_map), self)
    else
      match Circuit.assignLoop qubit_map (ret.setMapping (some qubit_map)) gl with
      | Except.ok r => (Except.ok r, self)
      | Except.error e => (Except.error e, self)

/-- The `for gate in self.gate_list` loop of `assign_by_map` (qcircuit.py:
125-127), acting on the accumulator `ret`. A bound-gate entry is rebound via
the gate's `assign_by_map` and appended to `ret`. For a nested-circuit entry,
`gate.assign_by_map(qubit_map)` is the recursive circuit method (propagating
its error if it raises); when it succeeds, the following
`ret._append_gate(assigned_gate)` calls `assigned_gate.involved_qubits()`,
which on a `Circuit` is a list attribute, not a method — a `TypeError` that
aborts the loop. -/
def Circuit.assignLoop (qubit_map : QubitMap) (ret : Circuit) :
    List (Gate ⊕ Circuit) → Except String Circuit
  | [] => Except.ok ret
  | Sum.inl g :: rest =>
    Circuit.assignLoop qubit_map (ret._append_gate (Gate.assign_by_map g qubit_map)) rest
  | Sum.inr c :: _rest =>
    match (Circuit.assign_by_map c qubit_map).1 with
    | Except.error e => Except.error e
    | Except.ok _ => Except.error "TypeError: list object is not callable"

end

/-- Embedding of `Circuit._append_circuit` (qcircuit.py:236-256), returning
the outcome paired with the post-state of `self`. The `Fragment` check
(`isinstance`, tracked by the `fragment` flag) raises before any mutation.
The `id(new_circuit) == id(self)` aliasing guard deep-copies an aliased
argument; in this value embedding the function already receives the call-time
values of `self` and `new_circuit`, and a deep copy of an aliased argument is
a fresh object with exactly that value, so aliased and non-aliased calls
compute alike from `new_circuit`'s value. -/
def Circuit._append_circuit (self : Circuit) (new_circuit : Circuit) (expand : Bool) :
    Except String Unit × Circuit :=
  if new_circuit.fragment then
    (Except.error "Append a fragment circuit without assigning qubits.", self)
  else
    match self, new_circuit with
    | .mk n gl iq fr ex mp, other =>
      let iq1 := mergeQubits iq other.involved_qubits
      if expand || other.expand then
        (Except.ok (), .mk n (gl ++ other.gate_list) iq1 fr ex mp)
      else
        (Except.ok (), .mk n (gl ++ [Sum.inr other]) iq1 fr ex mp)

/-- The argument of `Circuit.append`, dispatched on by `isinstance`: a
circuit (including fragments), a bound gate, or any other Python value. -/
inductive AppendArg : Type where
  | circ (c : Circuit)
  | gate (g : Gate)
  | other

/-- Embedding of `Circuit.append` (qcircuit.py:258-270). `kwExpand` is the
optional `expand` keyword argument: absent means `False`. A circuit goes to
`_append_circuit`, a gate to `_append_gate`, anything else raises
`NotImplementedError`. -/
def Circuit.append (self : Circuit) (obj : AppendArg) (kwExpand : Option Bool) :
    Except String Unit × Circuit :=
  match obj with
  | AppendArg.circ c => Circuit._append_circuit self c (kwExpand.getD false)
  | AppendArg.gate g => (Except.ok (), self._append_gate g)
  | AppendArg.other => (Except.error "NotImplementedError", self)

/-- Embedding of `Circuit.rx` (qcircuit.py:272-283): append an `Rx` gate and
`return self`. The first component is the Python return value. -/
def Circuit.rx (self : Circuit) (qubit : Int) (angle : Angle) : Option Circuit × Circuit :=
  let s := self._append_gate (Rx qubit angle)
  (some s, s)

/-- Embedding of `Circuit.ry` (qcircuit.py:285-296): append a `Ry` gate and
`return self`. -/
def Circuit.ry (self : Circuit) (qubit : Int) (angle : Angle) : Option Circuit × Circuit :=
  let s := self._append_gate (Ry qubit angle)
  (some s, s)

/-- Embedding of `Circuit.rz` (qcircuit.py:298-308): append an `Rz` gate; the
method body has no `return` statement, so the Python call evaluates to
`None`. -/
def Circuit.rz (self : Circuit) (qubit : Int) (angle : Angle) : Option Circuit × Circuit :=
  let s := self._append_gate (Rz qubit angle)
  (Option.none, s)

/-- A keyword-argument value passed to `assign`: an integer, or any other
Python value (carried as the text its `format` interpolation produces, for
the error message). -/
inductive KwVal : Type where
  | int (n : Int)
  | nonInt (txt : String)

/-- The key loop of `Circuit._parse_qubit_map_from_kwargs`
(qcircuit.py:131-156): skip `n_qubit`, reject keys that fail
`_check_qubit_key` and values that are not integers, and fill the dict. -/
def parseKwargsLoop : List (String × KwVal) → QubitMap → Except String QubitMap
  | [], qubit_map => Except.ok qubit_map
  | (key, v) :: rest, qubit_map =>
    if key == "n_qubit" then parseKwargsLoop rest qubit_map
    else
      match _check_qubit_key key with
      | Option.none =>
        Except.error ("Input must be q+integer=integer style (e.g. q1=1, etc.). User input: " ++ key)
      | some q =>
        match v with
        | KwVal.nonInt t =>
          Except.error ("Input must be q+integer=integer style (e.g. q1=1, etc.). User input: "
            ++ key ++ ", assigned_q: " ++ t)
        | KwVal.int assigned_q => parseKwargsLoop rest (qubit_map.insert q assigned_q)

/-- Embedding of `Circuit._parse_qubit_map_from_kwargs` (qcircuit.py:131-156).
The kwargs dict is the insertion-ordered list of (keyword, value) pairs. -/
def Circuit._parse_qubit_map_from_kwargs (kwargs : List (String × KwVal)) :
    Except String QubitMap :=
  parseKwargsLoop kwargs []

/-- The positional arguments of `assign`. The source takes an arbitrary
`*args` tuple; the call shapes its own documentation and the spec give it are
a single list argument or a (nonempty, when present) sequence of integers,
which is what we embed: `intArgs` is only used with a nonempty list (an empty
`*args` tuple is `noArgs`). -/
inductive PosArgs : Type where
  | noArgs
  | intArgs (ns : List Int)
  | listArg (l : List Int)

/-- Python `dict(enumerate(qubit_list))`-style loop of
`_parse_qubit_map_from_list`: position `i` maps to the given qubit; the keys
`0, 1, 2, …` are distinct, so plain appending matches dict assignment. -/
def pyEnumerateMap (qubit_list : List Int) : QubitMap :=
  qubit_list.enum.map (fun p => ((p.1 : Int), p.2))

/-- Embedding of `Circuit._parse_qubit_map_from_list` (qcircuit.py:158-169):
error on an empty argument tuple, else enumerate either the single list
argument or the variadic integers. -/
def Circuit._parse_qubit_map_from_list : PosArgs → Except String QubitMap
  | PosArgs.noArgs => Except.error "Fatal!!! Unexpected error."
  | PosArgs.listArg l => Except.ok (pyEnumerateMap l)
  | PosArgs.intArgs ns => Except.ok (pyEnumerateMap ns)

/-- Embedding of `Circuit.assign` (qcircuit.py:171-223), returning the
outcome paired with the post-state of `self`: when `len(args) > 0` parse the
positional form, else parse the keyword form, then delegate to
`assign_by_map`. A parse error propagates with `self` untouched. -/
def Circuit.assign (self : Circuit) (args : PosArgs) (kwargs : List (String × KwVal)) :
    Except String Circuit × Circuit :=
  match args with
  | PosArgs.noArgs =>
    match Circuit._parse_qubit_map_from_kwargs kwargs with
    | Except.error e => (Except.error e, self)
    | Except.ok qubit_map => self.assign_by_map qubit_map
  | a =>
    match Circuit._parse_qubit_map_from_list a with
    | Except.error e => (Except.error e, self)
    | Except.ok qubit_map => self.assign_by_map qubit_map

/-- Embedding of `Fragment.__init__` (qcircuit.py:310-314): a circuit with
`fragment = True` and `expand = False`. -/
def Fragment.init (name : Option String) : Circuit :=
  ((Circuit.init name).setFragment true).setExpand false

/-- Embedding of `Fragment.assign` (qcircuit.py:316-319): delegate to
`Circuit.assign`, then force `expand = False` on the result. -/
def Fragment.assign (self : Circuit) (args : PosArgs) (kwargs : List (String × KwVal)) :
    Except String Circuit × Circuit :=
  match Circuit.assign self args kwargs with
  | (Except.ok ret, post) => (Except.ok (ret.setExpand false), post)
  | r => r

/-! ## Shared lemmas -/

theorem contains_of_mem {l : List Int} {q : Int} (h : q ∈ l) : l.contains q = true := by
  simpa [List.contains] using h

theorem mergeQubits_eq_self {iq : List Int} {qs : List Int}
    (h : ∀ q ∈ qs, q ∈ iq) : mergeQubits iq qs = iq := by
  induction qs with
  | nil => rfl
  | cons q rest ih =>
    have hq : iq.contains q = true := contains_of_mem (h q (List.mem_cons_self q rest))
    have ht : ∀ x ∈ rest, x ∈ iq := fun x hx => h x (List.mem_cons_of_mem q hx)
    unfold mergeQubits at ih ⊢
    rw [List.foldl_cons, hq]
    simp only [if_true]
    exact ih ht

theorem append_gate_mapping (c : Circuit) (g : Gate) :
    (c._append_gate g).mapping = c.mapping := by
  cases c; rfl

theorem assignLoop_all_gates (m : QubitMap) (gl : List (Gate ⊕ Circuit)) :
    ∀ ret : Circuit, (∀ e ∈ gl, ∃ g, e = Sum.inl g) →
    ∃ r, Circuit.assignLoop m ret gl = Except.ok r ∧ r.mapping = ret.mapping := by
  induction gl with
  | nil => intro ret _; exact ⟨ret, rfl, rfl⟩
  | cons e rest ih =>
    intro ret h
    obtain ⟨g, hg⟩ := h e (List.mem_cons_self e rest)
    subst hg
    have ht : ∀ x ∈ rest, ∃ g, x = Sum.inl g := fun x hx => h x (List.mem_cons_of_mem _ hx)
    obtain ⟨r, hr, hmap⟩ := ih (ret._append_gate (Gate.assign_by_map g m)) ht
    exact ⟨r, hr, by rw [hmap, append_gate_mapping]⟩

theorem assign_by_map_snd (c : Circuit) (m : QubitMap) :
    (Circuit.assign_by_map c m).2 = c := by
  cases c with
  | mk n gl iq fr ex mp =>
    rw [Circuit.assign_by_map]
    split
    · rfl
    · split <;> rfl

theorem assign_snd (c : Circuit) (args : PosArgs) (kwargs : List (String × KwVal)) :
    (Circuit.assign c args kwargs).2 = c := by
  unfold Circuit.assign
  cases args with
  | noArgs =>
    cases h : Circuit._parse_qubit_map_from_kwargs kwargs with
    | error e => simp [h]
    | ok qm => simp [h, assign_by_map_snd]
  | intArgs ns => simp [Circuit._parse_qubit_map_from_list, assign_by_map_snd]
  | listArg l => simp [Circuit._parse_qubit_map_from_list, assign_by_map_snd]

theorem parseKwargsLoop_skip_all (kwargs : List (String × KwVal)) :
    ∀ qm : QubitMap, (∀ p ∈ kwargs, p.1 = "n_qubit") →
    parseKwargsLoop kwargs qm = Except.ok qm := by
  induction kwargs with
  | nil => intro qm _; rfl
  | cons p rest ih =>
    intro qm h
    obtain ⟨key, v⟩ := p
    have hk : key = "n_qubit" := h (key, v) (List.mem_cons_self _ rest)
    subst hk
    unfold parseKwargsLoop
    simp only [beq_self_eq_true, if_true]
    exact ih qm (fun x hx => h x (List.mem_cons_of_mem _ hx))

/-! ## Concrete circuits used as counterexample and witness inputs -/

/-- A bound single-gate sub-circuit with `expand = False` (the shape
`Fragment.assign` produces), usable as a nested `gate_list` entry. -/
def nestedSub : Circuit :=
  Circuit.mk (some "sub") [Sum.inl (Rx 0 "0.5")] [0] false false Option.none

/-- A circuit holding `nestedSub` as a single nested `gate_list` entry (the
state after `host.append(nestedSub, expand=False)`). -/
def nestedHost : Circuit :=
  Circuit.mk Option.none [Sum.inr nestedSub] [0] false true Option.none

/-- The spec's example circuit involving qubits 0, 1 and 2, built through the
gate-append API. -/
def circ012 : Circuit :=
  (((Circuit.init Option.none)._append_gate (Rx 0 "0.1"))._append_gate
    (Ry 1 "0.2"))._append_gate (Rz 2 "0.3")

/-- A two-gate circuit on qubits 0 and 1, built through the gate-append API. -/
def demoCirc : Circuit :=
  ((Circuit.init Option.none)._append_gate (Rx 0 "1.57"))._append_gate (Ry 1 "3.14")

/-! ## Claims -/

/-- C5, counterexample: the claim says `check_qubit_overflow([0,1,2], 3)`
returns `False`; the loop finds no qubit with `qubit >= 3` in `[0,1,2]`, so
the code returns `True`. -/
theorem check_qubit_overflow_012_not_false :
    ¬ (_check_qubit_overflow [0, 1, 2] 3 = false) := by decide

/-- C5 (amended): `check_qubit_overflow([0,1,2], 3)` and
`check_qubit_overflow([0,1], 3)` both return `True` — every listed index is
strictly below 3, matching the spec's own "true iff every index < n"
definition. -/
theorem check_qubit_overflow_012_and_01 :
    _check_qubit_overflow [0, 1, 2] 3 = true ∧ _check_qubit_overflow [0, 1] 3 = true := by
  decide

/-- C7: appending a `Fragment` (a circuit whose `fragment` flag is set, i.e.
an instance of the `Fragment` class not yet resolved via `assign`) into any
circuit raises, whatever the `expand` keyword, and the failed call leaves the
target circuit unchanged (its post-state is the original value, so
`gate_list` and `involved_qubits` are untouched). -/
theorem append_unassigned_fragment_errors (A f : Circuit) (hf : f.fragment = true)
    (eo : Option Bool) :
    Circuit.append A (AppendArg.circ f) eo =
      (Except.error "Append a fragment circuit without assigning qubits.", A) := by
  simp [Circuit.append, Circuit._append_circuit, hf]

/-- C7, witness at a concrete fragment and target. -/
theorem append_unassigned_fragment_errors_witness :
    Circuit.append demoCirc (AppendArg.circ (Fragment.init (some "frag"))) Option.none =
      (Except.error "Append a fragment circuit without assigning qubits.", demoCirc) :=
  append_unassigned_fragment_errors demoCirc (Fragment.init (some "frag")) rfl Option.none

/-- C8, evaluation at the failing input: `rx` and `ry` append their gate and
return `self`, but `rz` appends its gate and falls off the end of the method,
returning `None` — against its own docstring and the fluent-chaining claim. -/
theorem rz_returns_none_rx_ry_return_self :
    ((Circuit.init Option.none).rz 0 "0.5").1 = Option.none ∧
    (((Circuit.init Option.none).rz 0 "0.5").2).gate_list = [Sum.inl (Rz 0 "0.5")] ∧
    ((Circuit.init Option.none).rx 0 "0.5").1 = some (((Circuit.init Option.none).rx 0 "0.5").2) ∧
    ((Circuit.init Option.none).ry 0 "0.5").1 = some (((Circuit.init Option.none).ry 0 "0.5").2) :=
  ⟨rfl, rfl, rfl, rfl⟩

/-- C10: a freshly constructed plain `Circuit` has `expand = True`, and
appending any circuit `B` with `expand` still `True` (and not a `Fragment`)
flattens `B`'s entries into the parent's `gate_list` even though the `expand`
keyword defaults to `False` — no single nested entry is created. -/
theorem fresh_circuit_expand_flattens :
    (∀ nm : Option String, (Circuit.init nm).expand = true) ∧
    (∀ A B : Circuit, B.expand = true → B.fragment = false →
      (Circuit.append A (AppendArg.circ B) Option.none).1 = Except.ok () ∧
      ((Circuit.append A (AppendArg.circ B) Option.none).2).gate_list
        = A.gate_list ++ B.gate_list) := by
  constructor
  · intro nm; rfl
  · intro A B hBe hBf
    cases A with
    | mk n gl iq fr ex mp =>
      constructor <;>
        simp [Circuit.append, Circuit._append_circuit, hBf, hBe, Circuit.gate_list]

/-- C10, witness: a fresh circuit expands, and appending a fresh-built
one-gate circuit to `demoCirc` with no `expand` keyword flattens it. -/
theorem fresh_circuit_expand_flattens_witness :
    (Circuit.init (some "B")).expand = true ∧
    ((Circuit.append demoCirc
        (AppendArg.circ ((Circuit.init Option.none)._append_gate (Rx 2 "x")))
        Option.none).2).gate_list
      = demoCirc.gate_list ++ ((Circuit.init Option.none)._append_gate (Rx 2 "x")).gate_list :=
  ⟨fresh_circuit_expand_flattens.1 (some "B"),
   (fresh_circuit_expand_flattens.2 demoCirc
      ((Circuit.init Option.none)._append_gate (Rx 2 "x")) rfl rfl).2⟩

/-- C6: self-append of a non-Fragment circuit succeeds (the deep copy taken on
the aliasing check makes the call act on the snapshot value, which is what
this pure embedding computes with), and the involved-qubit list afterwards is
its own pre-append value — the self-union adds no duplicate. -/
theorem self_append_keeps_involved_qubits (A : Circuit) (hA : A.fragment = false) :
    ∃ A2 : Circuit, Circuit.append A (AppendArg.circ A) Option.none = (Except.ok (), A2) ∧
      A2.involved_qubits = A.involved_qubits := by
  cases A with
  | mk n gl iq fr ex mp =>
    have hfr : fr = false := hA
    subst hfr
    have hmerge : mergeQubits iq iq = iq := mergeQubits_eq_self (fun q h => h)
    cases ex with
    | true =>
      refine ⟨Circuit.mk n (gl ++ gl) iq false true mp,
        ?_, by simp [Circuit.involved_qubits]⟩
      simp [Circuit.append, Circuit._append_circuit, Circuit.fragment, Circuit.expand,
        Circuit.gate_list, Circuit.involved_qubits, hmerge]
    | false =>
      refine ⟨Circuit.mk n (gl ++ [Sum.inr (Circuit.mk n gl iq false false mp)]) iq false false mp,
        ?_, by simp [Circuit.involved_qubits]⟩
      simp [Circuit.append, Circuit._append_circuit, Circuit.fragment, Circuit.expand,
        Circuit.gate_list, Circuit.involved_qubits, hmerge]

/-- C6, witness at a concrete two-gate circuit. -/
theorem self_append_keeps_involved_qubits_witness :
    ∃ A2 : Circuit,
      Circuit.append demoCirc (AppendArg.circ demoCirc) Option.none = (Except.ok (), A2) ∧
      A2.involved_qubits = demoCirc.involved_qubits :=
  self_append_keeps_involved_qubits demoCirc rfl

/-- C2: appending a non-Fragment circuit `B` through `_append_circuit` always
succeeds, flattening `B`'s `gate_list` entries into `A.gate_list` exactly when
the `expand` argument or `B.expand` holds and otherwise appending `B` itself
as one nested entry; `append` passes the `expand` keyword through with default
`False`, so for `B.expand = False` the keyword alone selects nesting
(`expand=False`) versus flattening (`expand=True`). -/
theorem append_circuit_flatten_or_nest (A B : Circuit) (hB : B.fragment = false) (e : Bool) :
    (Circuit._append_circuit A B e).1 = Except.ok () ∧
    ((Circuit._append_circuit A B e).2).gate_list
      = A.gate_list ++ (if (e || B.expand) = true then B.gate_list else [Sum.inr B]) ∧
    (∀ eo : Option Bool,
      Circuit.append A (AppendArg.circ B) eo = Circuit._append_circuit A B (eo.getD false)) ∧
    (B.expand = false →
      ((Circuit.append A (AppendArg.circ B) (some false)).2).gate_list
        = A.gate_list ++ [Sum.inr B] ∧
      ((Circuit.append A (AppendArg.circ B) (some true)).2).gate_list
        = A.gate_list ++ B.gate_list) := by
  have hmain : ∀ e2 : Bool, (Circuit._append_circuit A B e2).1 = Except.ok () ∧
      ((Circuit._append_circuit A B e2).2).gate_list
        = A.gate_list ++ (if (e2 || B.expand) = true then B.gate_list else [Sum.inr B]) := by
    intro e2
    cases A with
    | mk n gl iq fr ex mp =>
      simp only [Circuit._append_circuit, hB, Bool.false_eq_true, if_false]
      split
      · exact ⟨rfl, by simp_all [Circuit.gate_list]⟩
      · exact ⟨rfl, by simp_all [Circuit.gate_list]⟩
  refine ⟨(hmain e).1, (hmain e).2, fun eo => rfl, fun hBe => ⟨?_, ?_⟩⟩
  · have h2 := (hmain false).2
    rw [hBe] at h2
    simpa using h2
  · have h2 := (hmain true).2
    simpa using h2

/-- C2, witness: nesting versus flattening of a concrete `expand = False`
sub-circuit under a concrete host. -/
theorem append_circuit_flatten_or_nest_witness :
    (Circuit._append_circuit demoCirc nestedSub false).1 = Except.ok () ∧
    ((Circuit.append demoCirc (AppendArg.circ nestedSub) (some false)).2).gate_list
      = demoCirc.gate_list ++ [Sum.inr nestedSub] ∧
    ((Circuit.append demoCirc (AppendArg.circ nestedSub) (some true)).2).gate_list
      = demoCirc.gate_list ++ nestedSub.gate_list := by
  have h := append_circuit_flatten_or_nest demoCirc nestedSub rfl false
  exact ⟨h.1, (h.2.2.2 rfl).1, (h.2.2.2 rfl).2⟩

/-- C9, counterexample: on a circuit involving no qubits, `assign()` with zero
positional and zero usable keyword arguments does not raise — it silently
returns a fresh circuit carrying the empty mapping. -/
theorem assign_no_args_succeeds_on_empty_circuit :
    (Circuit.assign (Circuit.init Option.none) PosArgs.noArgs []).1 =
      Except.ok (Circuit.mk Option.none [] [] false true (some [])) := rfl

/-- The circuit `Fragment("f").assign()` produces under zero usable
arguments: an assigned, empty, `expand = False` sub-circuit carrying the
empty mapping. -/
def emptyAssignedFrag : Circuit :=
  Circuit.mk (some "f") [] [] false false (some [])

/-- A circuit involving no qubits that holds `emptyAssignedFrag` as a single
nested `gate_list` entry: the state of a fresh host after
`host.append(emptyAssignedFrag)`. -/
def emptyNestedHost : Circuit :=
  Circuit.mk Option.none [Sum.inr emptyAssignedFrag] [] false true Option.none

/-- C9 (amended): `assign` with zero usable arguments never raises a
dedicated empty-argument error — it parses the empty qubit map and hands it
to `assign_by_map`. When the circuit involves at least one qubit, the call
raises the incomplete-qubit-map error with its constant message. When the
circuit involves no qubits and every `gate_list` entry is a bound gate (in
particular, a freshly constructed circuit), the call silently succeeds with a
fresh circuit carrying the empty mapping and `self` untouched. An
empty-involved circuit holding a nested sub-circuit entry — reachable by
appending the result of `Fragment("f").assign()` to a fresh host — instead
raises the gate-loop `TypeError`. -/
theorem assign_no_usable_args_outcome (c : Circuit) (kwargs : List (String × KwVal))
    (hkw : ∀ p ∈ kwargs, p.1 = "n_qubit") :
    (c.involved_qubits ≠ [] →
      (Circuit.assign c PosArgs.noArgs kwargs).1 =
        Except.error ("Qubit map does not cover all involved qubits. "
          ++ "Every involved qubits must be a key in qubit_map.\n"
          ++ "Expect: [], Get: \x7b\x7d")) ∧
    (c.involved_qubits = [] → (∀ e ∈ c.gate_list, ∃ g, e = Sum.inl g) →
      ∃ r, Circuit.assign c PosArgs.noArgs kwargs = (Except.ok r, c) ∧
        r.mapping = some []) ∧
    (Fragment.assign (Fragment.init (some "f")) PosArgs.noArgs []).1
      = Except.ok emptyAssignedFrag ∧
    (Circuit.append (Circuit.init Option.none) (AppendArg.circ emptyAssignedFrag)
        Option.none).2 = emptyNestedHost ∧
    emptyNestedHost.involved_qubits = [] ∧
    (Circuit.assign emptyNestedHost PosArgs.noArgs []).1 =
      Except.error "TypeError: list object is not callable" := by
  have hparse : Circuit._parse_qubit_map_from_kwargs kwargs = Except.ok [] :=
    parseKwargsLoop_skip_all kwargs [] hkw
  refine ⟨?_, ?_, rfl, rfl, rfl, rfl⟩
  · intro hne
    cases c with
    | mk n gl iq fr ex mp =>
      have hiqne : iq ≠ [] := hne
      have hchk : Circuit._check_qubit_map (Circuit.mk n gl iq fr ex mp) [] = false := by
        cases iq with
        | nil => exact absurd rfl hiqne
        | cons q rest => simp [Circuit._check_qubit_map, Circuit.involved_qubits, QubitMap.hasKey]
      simp only [Circuit.assign, Circuit._parse_qubit_map_from_kwargs] at hparse ⊢
      simp only [hparse]
      rw [Circuit.assign_by_map]
      simp only [hchk, Bool.not_false, if_true]
      rfl
  · intro hempty hflat
    cases c with
    | mk n gl iq fr ex mp =>
      have hiq : iq = [] := hempty
      subst hiq
      have hchk : Circuit._check_qubit_map (Circuit.mk n gl [] fr ex mp) [] = true := rfl
      obtain ⟨r, hr, hmap⟩ :=
        assignLoop_all_gates [] gl ((Circuit.init n).setMapping (some [])) hflat
      refine ⟨r, ?_, by rw [hmap]; rfl⟩
      simp only [Circuit.assign, Circuit._parse_qubit_map_from_kwargs] at hparse ⊢
      simp only [hparse]
      rw [Circuit.assign_by_map]
      simp [hchk, hr]

/-- C9 (amended), witness: a concrete one-gate circuit raises on an
argument-free `assign`, and a concrete fresh circuit silently succeeds. -/
theorem assign_no_usable_args_outcome_witness :
    (Circuit.assign ((Circuit.init Option.none)._append_gate (Rx 0 "a"))
        PosArgs.noArgs []).1 =
      Except.error ("Qubit map does not cover all involved qubits. "
        ++ "Every involved qubits must be a key in qubit_map.\n"
        ++ "Expect: [], Get: \x7b\x7d") ∧
    (∃ r, Circuit.assign (Circuit.init Option.none) PosArgs.noArgs []
        = (Except.ok r, Circuit.init Option.none) ∧ r.mapping = some []) := by
  constructor
  · exact (assign_no_usable_args_outcome ((Circuit.init Option.none)._append_gate (Rx 0 "a"))
      [] (fun p hp => absurd hp (List.not_mem_nil p))).1 (by decide)
  · exact (assign_no_usable_args_outcome (Circuit.init Option.none)
      [] (fun p hp => absurd hp (List.not_mem_nil p))).2.1 rfl
      (fun e he => absurd he (List.not_mem_nil e))

/-- C3, evaluation at the failing input: `assign_by_map` on a circuit
involving qubits 0, 1, 2 with the map missing qubit 2 does raise before any
gate is appended and leaves the circuit untouched, but the message formats
`ret.involved_qubits` — the freshly created result circuit's empty list — so
it reads `Expect: []` and names neither the circuit's involved qubits nor the
missing qubit 2. -/
theorem incomplete_map_message_has_empty_expect :
    (Circuit.assign_by_map circ012 [(0, 5), (1, 6)]).1 =
      Except.error ("Qubit map does not cover all involved qubits. "
        ++ "Every involved qubits must be a key in qubit_map.\n"
        ++ "Expect: [], Get: \x7b0: 5, 1: 6\x7d") ∧
    (Circuit.assign_by_map circ012 [(0, 5), (1, 6)]).2 = circ012 :=
  ⟨rfl, rfl⟩

/-- C1, counterexample: a qubit map covering the involved qubits does not make
`assign_by_map` return a new circuit on every circuit — on a circuit holding a
nested sub-circuit entry, the loop's `ret._append_gate(assigned_gate)` calls
`involved_qubits()` on a `Circuit` value, whose `involved_qubits` is a list
attribute rather than a method, and the call raises instead of returning. -/
theorem assign_nested_entry_raises :
    Circuit._check_qubit_map nestedHost [(0, 1)] = true ∧
    (Circuit.assign_by_map nestedHost [(0, 1)]).1 =
      Except.error "TypeError: list object is not callable" :=
  ⟨rfl, rfl⟩

/-- C1 (amended): for a circuit whose `gate_list` entries are all bound gates,
`assign_by_map` under a covering map returns a fresh circuit (carrying the map
as its `mapping`) and leaves `self` exactly as it was; and regardless of
entries, map or arguments, neither `assign_by_map` nor `assign` ever mutates
`self` — on a nested-entry circuit the call raises rather than returning. -/
theorem assign_by_map_pure_on_flat_circuits (c : Circuit) (m : QubitMap)
    (hcov : Circuit._check_qubit_map c m = true)
    (hflat : ∀ e ∈ c.gate_list, ∃ g, e = Sum.inl g) :
    (∃ r, Circuit.assign_by_map c m = (Except.ok r, c) ∧ r.mapping = some m) ∧
    (∀ d : Circuit, ∀ m2 : QubitMap, (Circuit.assign_by_map d m2).2 = d ∧
      ∀ args kwargs, (Circuit.assign d args kwargs).2 = d) := by
  constructor
  · cases c with
    | mk n gl iq fr ex mp =>
      have hflat2 : ∀ e ∈ gl, ∃ g, e = Sum.inl g := hflat
      obtain ⟨r, hr, hmap⟩ :=
        assignLoop_all_gates m gl ((Circuit.init n).setMapping (some m)) hflat2
      refine ⟨r, ?_, ?_⟩
      · rw [Circuit.assign_by_map]
        simp [hcov, hr]
      · rw [hmap]; rfl
  · intro d m2
    exact ⟨assign_by_map_snd d m2, fun args kwargs => assign_snd d args kwargs⟩

/-- C1 (amended), witness at a concrete two-gate circuit and covering map. -/
theorem assign_by_map_pure_on_flat_circuits_witness :
    (∃ r, Circuit.assign_by_map demoCirc [(0, 7), (1, 8)] = (Except.ok r, demoCirc) ∧
      r.mapping = some [(0, 7), (1, 8)]) ∧
    (∀ d : Circuit, ∀ m2 : QubitMap, (Circuit.assign_by_map d m2).2 = d ∧
      ∀ args kwargs, (Circuit.assign d args kwargs).2 = d) :=
  assign_by_map_pure_on_flat_circuits demoCirc [(0, 7), (1, 8)] rfl (by
    intro e he
    rw [show demoCirc.gate_list = [Sum.inl (Rx 0 "1.57"), Sum.inl (Ry 1 "3.14")] from rfl] at he
    cases he with
    | head => exact ⟨Rx 0 "1.57", rfl⟩
    | tail _ h2 =>
      cases h2 with
      | head => exact ⟨Ry 1 "3.14", rfl⟩
      | tail _ h3 => cases h3)

theorem digit_bne_plus {c : Char} (h : c.isDigit = true) : (c == '+') = false := by
  simp only [Char.isDigit, Bool.and_eq_true, decide_eq_true_eq] at h
  obtain ⟨h1, h2⟩ := h
  rw [beq_eq_false_iff_ne]
  intro hc
  subst hc
  revert h1 h2
  decide

theorem digit_bne_minus {c : Char} (h : c.isDigit = true) : (c == '-') = false := by
  simp only [Char.isDigit, Bool.and_eq_true, decide_eq_true_eq] at h
  obtain ⟨h1, h2⟩ := h
  rw [beq_eq_false_iff_ne]
  intro hc
  subst hc
  revert h1 h2
  decide

/-- C4, counterexample: the parser is not an exact match of the
letter-q-then-digits pattern — the suffix is fed to Python `int`, which also
accepts a sign, so `"q+7"` (a plus sign is "another character" under the
claimed pattern) yields `7` where the claim demands the `None` sentinel. -/
theorem check_qubit_key_accepts_signed :
    _check_qubit_key "q+7" = some 7 ∧ specQubitKeyMatch "q+7" = Option.none :=
  ⟨rfl, rfl⟩

/-- C4 (amended): for every nonempty digit string `ds`, the key `q`+`ds`
parses to the value of `ds`; a key not starting with `q` (or the bare `"q"`,
or a key whose suffix `int` rejects, like `"qa"`) yields the `None` sentinel,
and no input raises (the embedded parser is total, as the source catches every
exception); but the accepted suffixes are exactly those of Python `int` —
optionally signed, whitespace-padded, underscore-grouped — so e.g. `"q+7"`
also parses, to `7`. -/
theorem check_qubit_key_amended (ds : List Char) (hne : ds ≠ [])
    (hdig : ∀ c ∈ ds, c.isDigit = true) :
    _check_qubit_key (String.mk ('q' :: ds)) = some (Int.ofNat (digitsVal ds)) ∧
    (∀ key : String, key.toList.head? ≠ some 'q' → _check_qubit_key key = Option.none) ∧
    _check_qubit_key "q" = Option.none ∧
    _check_qubit_key "qa" = Option.none ∧
    _check_qubit_key "x7" = Option.none ∧
    _check_qubit_key "3q" = Option.none ∧
    _check_qubit_key "q+7" = some 7 := by
  refine ⟨?_, ?_, rfl, rfl, rfl, rfl, rfl⟩
  · unfold _check_qubit_key
    rw [show (String.mk ('q' :: ds)).toList = 'q' :: ds from rfl]
    simp only [beq_self_eq_true, if_true]
    unfold pyIntParse
    rw [pyStrip_all_digits hdig]
    cases ds with
    | nil => exact absurd rfl hne
    | cons d tail =>
      have hd : d.isDigit = true := hdig d (List.mem_cons_self d tail)
      have htail : ∀ c ∈ tail, c.isDigit = true :=
        fun c hc => hdig c (List.mem_cons_of_mem d hc)
      simp only [digit_bne_plus hd, digit_bne_minus hd, Bool.false_eq_true, if_false]
      unfold parseUnsigned
      simp only [hd, if_true]
      rw [parseDigitsAux_all_digits tail _ htail]
      simp [digitsVal]
  · intro key hkey
    unfold _check_qubit_key
    cases hl : key.toList with
    | nil => rfl
    | cons c cs =>
      rw [hl] at hkey
      have hc : c ≠ 'q' := by
        intro hc
        exact hkey (by rw [hc]; rfl)
      simp [hc]

/-- C4 (amended), witness: the digit string `"7"` after `q` parses to 7, and a
key not starting with `q` yields the sentinel. -/
theorem check_qubit_key_amended_witness :
    _check_qubit_key (String.mk ('q' :: ['7'])) = some (Int.ofNat (digitsVal ['7'])) ∧
    _check_qubit_key "x7" = Option.none := by
  have h := check_qubit_key_amended ['7'] (by decide) (by decide)
  exact ⟨h.1, h.2.2.2.2.1⟩
